import Mathlib

set_option maxRecDepth 100000

/-!
Verification of the wone-race-results-extractor core against its design
specification.

The development shallowly embeds the server-side core of the repository:

* `hashUrl` — SHA-256 of the URL, hex-encoded (crypto-js `SHA256(url).toString()`),
  implemented in full (`src/server/parser.ts`, `hashUrl`).
* `normalizeUrl` — `new URL(url).href` (`src/server/parser.ts`, `normalizeUrl`).
  The WHATWG parse-and-serialize is modelled on a restricted input grammar
  (absolute `http`/`https` URLs without userinfo, percent-escapes left verbatim,
  no dot segments); on that grammar the model agrees with the WHATWG `href`:
  scheme and host are lower-cased, an explicit default port is dropped, an empty
  path serializes as `/`, and query and fragment are preserved.
* `matchFirst` — the ordered fallback pattern chain (`src/unnamed/part_003`,
  `matchFirst`), with the JS regular-expression engine abstracted as the
  `exec` field of `RegExpPat` (a match returns the array of capture groups,
  `none` entries standing for `undefined` groups).
* `retryWithBackoff` — the bounded exponential backoff loop
  (`src/server/parser.ts`, `retryWithBackoff`), instrumented to record the
  number of invocations of the wrapped operation and the delays slept.
* `detectPlatform` / `extractRaceResults` — platform registry and extraction
  (`src/server/parser.ts`).  The only registered profile is Sports Timing
  Solutions, whose `urlPattern` regex `/sportstimingsolutions\.in/i` is a
  case-insensitive literal substring test.  The browser render together with
  the profile's extraction logic is abstracted as an `Except String PageData`
  argument (the settled page either yields a partial record or throws).
* `getCachedResult`, `getResultsByJobId` — the cache/result queries over the
  `race_results` table (`src/server/db.ts`), with the table modelled as a list
  of rows in insertion order.
* `processUrls` — the background batch loop (`src/server/routers.ts`,
  `processUrls`), as a state machine over a single job's database (the job row
  updated by `updateProcessingJob` plus the `race_results` rows).  Each
  `updateProcessingJob` call is recorded as an observation of the job row; a
  rejection of the surrounding async function (an exception escaping the
  per-URL try/catch) ends the run with `aborted = true`, matching the caller
  which only logs the rejection.  `Date.now` is modelled as a constant `now`
  for the run and times are naturals (milliseconds).
-/

/-! ## Generic helpers -/

instance {e a : Type} [DecidableEq e] [DecidableEq a] : DecidableEq (Except e a) :=
  fun x y =>
    match x, y with
    | Except.ok u, Except.ok v =>
      if h : u = v then isTrue (by rw [h]) else isFalse (fun hc => h (Except.ok.inj hc))
    | Except.error u, Except.error v =>
      if h : u = v then isTrue (by rw [h]) else isFalse (fun hc => h (Except.error.inj hc))
    | Except.ok _, Except.error _ => isFalse (fun hc => Except.noConfusion hc)
    | Except.error _, Except.ok _ => isFalse (fun hc => Except.noConfusion hc)

/-! ## SHA-256 (crypto-js sha256, hex digest) -/

def add32 (a b : Nat) : Nat := (a + b) % 4294967296

def rotr32 (n x : Nat) : Nat := ((x >>> n) ||| (x <<< (32 - n))) % 4294967296

def not32 (x : Nat) : Nat := 4294967295 - x

def bSig0 (x : Nat) : Nat := rotr32 2 x ^^^ rotr32 13 x ^^^ rotr32 22 x
def bSig1 (x : Nat) : Nat := rotr32 6 x ^^^ rotr32 11 x ^^^ rotr32 25 x
def sSig0 (x : Nat) : Nat := rotr32 7 x ^^^ rotr32 18 x ^^^ (x >>> 3)
def sSig1 (x : Nat) : Nat := rotr32 17 x ^^^ rotr32 19 x ^^^ (x >>> 10)
def chF (x y z : Nat) : Nat := (x &&& y) ^^^ (not32 x &&& z)
def majF (x y z : Nat) : Nat := (x &&& y) ^^^ (x &&& z) ^^^ (y &&& z)

def shaK : List Nat :=
  [1116352408, 1899447441, 3049323471, 3921009573, 961987163,
   1508970993, 2453635748, 2870763221, 3624381080, 310598401,
   607225278, 1426881987, 1925078388, 2162078206, 2614888103,
   3248222580, 3835390401, 4022224774, 264347078, 604807628,
   770255983, 1249150122, 1555081692, 1996064986, 2554220882,
   2821834349, 2952996808, 3210313671, 3336571891, 3584528711,
   113926993, 338241895, 666307205, 773529912, 1294757372,
   1396182291, 1695183700, 1986661051, 2177026350, 2456956037,
   2730485921, 2820302411, 3259730800, 3345764771, 3516065817,
   3600352804, 4094571909, 275423344, 430227734, 506948616,
   659060556, 883997877, 958139571, 1322822218, 1537002063,
   1747873779, 1955562222, 2024104815, 2227730452, 2361852424,
   2428436474, 2756734187, 3204031479, 3329325298]

def shaH0 : List Nat :=
  [1779033703, 3144134277, 1013904242, 2773480762, 1359893119,
   2600822924, 528734635, 1541459225]

def be64 (n : Nat) : List Nat :=
  [(n >>> 56) &&& 255, (n >>> 48) &&& 255, (n >>> 40) &&& 255, (n >>> 32) &&& 255,
   (n >>> 24) &&& 255, (n >>> 16) &&& 255, (n >>> 8) &&& 255, n &&& 255]

def padBytes (msg : List Nat) : List Nat :=
  let L := msg.length
  let k := (119 - L % 64) % 64
  msg ++ [128] ++ List.replicate k 0 ++ be64 (8 * L)

def bytesToWords : List Nat → List Nat
  | b0 :: b1 :: b2 :: b3 :: rest => (((b0 * 256 + b1) * 256 + b2) * 256 + b3) :: bytesToWords rest
  | _ => []

def chunk64F : Nat → List Nat → List (List Nat)
  | 0, _ => []
  | _ + 1, [] => []
  | fuel + 1, c :: cs => ((c :: cs).take 64) :: chunk64F fuel ((c :: cs).drop 64)

def chunk64 (l : List Nat) : List (List Nat) := chunk64F l.length l

def extendLoop : Nat → List Nat → List Nat
  | 0, ws => ws
  | n + 1, ws =>
    let t := ws.length
    let nw := add32 (add32 (sSig1 (ws.getD (t - 2) 0)) (ws.getD (t - 7) 0))
                    (add32 (sSig0 (ws.getD (t - 15) 0)) (ws.getD (t - 16) 0))
    extendLoop n (ws ++ [nw])

def shaRound (st : List Nat) (wk : Nat × Nat) : List Nat :=
  match st with
  | [a, b, c, d, e, f, g, h] =>
    let t1 := add32 (add32 (add32 h (bSig1 e)) (add32 (chF e f g) wk.2)) wk.1
    let t2 := add32 (bSig0 a) (majF a b c)
    [add32 t1 t2, a, b, c, add32 d t1, e, f, g]
  | other => other

def compressBlock (H : List Nat) (block : List Nat) : List Nat :=
  let ws := extendLoop 48 (bytesToWords block)
  let fin := (List.zip ws shaK).foldl shaRound H
  List.zipWith add32 H fin

def be32bytes (w : Nat) : List Nat :=
  [(w >>> 24) &&& 255, (w >>> 16) &&& 255, (w >>> 8) &&& 255, w &&& 255]

def sha256Bytes (msg : List Nat) : List Nat :=
  let H := (chunk64 (padBytes msg)).foldl compressBlock shaH0
  (H.map be32bytes).flatten

def utf8Bytes (c : Nat) : List Nat :=
  if c < 128 then [c]
  else if c < 2048 then [192 ||| (c >>> 6), 128 ||| (c &&& 63)]
  else if c < 65536 then [224 ||| (c >>> 12), 128 ||| ((c >>> 6) &&& 63), 128 ||| (c &&& 63)]
  else [240 ||| (c >>> 18), 128 ||| ((c >>> 12) &&& 63), 128 ||| ((c >>> 6) &&& 63), 128 ||| (c &&& 63)]

def strBytes (s : String) : List Nat :=
  (s.toList.map (fun c => utf8Bytes c.toNat)).flatten

def hexChar (n : Nat) : Char :=
  if n < 10 then Char.ofNat (48 + n) else Char.ofNat (87 + n)

def bytesToHex (bs : List Nat) : String :=
  String.mk ((bs.map (fun b => [hexChar (b / 16), hexChar (b % 16)])).flatten)

/-- SHA-256 hash of a URL, hex-encoded: `SHA256(url).toString()` of
`src/server/parser.ts`. -/
def hashUrl (url : String) : String :=
  bytesToHex (sha256Bytes (strBytes url))

/-! ## URL normalization (`new URL(url).href`) -/

structure URLParts where
  scheme : String
  host : String
  port : Option Nat
  path : String
  query : Option String
  fragment : Option String
deriving Repr, DecidableEq

def takeUntil (p : Char → Bool) : List Char → List Char × List Char
  | [] => ([], [])
  | c :: cs =>
    if p c then ([], c :: cs)
    else
      let r := takeUntil p cs
      (c :: r.1, r.2)

def isSchemeRest (c : Char) : Bool := c.isAlpha || c.isDigit || c = '+' || c = '-' || c = '.'
def isHostChar (c : Char) : Bool := c.isAlpha || c.isDigit || c = '.' || c = '-'
def isPathChar (c : Char) : Bool :=
  c.isAlpha || c.isDigit || c = '/' || c = '-' || c = '.' || c = '_' || c = '~' || c = '%'
def isQueryChar (c : Char) : Bool :=
  c.isAlpha || c.isDigit || c = '-' || c = '.' || c = '_' || c = '~' || c = '%' ||
  c = '=' || c = '&' || c = '+' || c = '/' || c = ':' || c = '@'

def digitsToNat (l : List Char) : Nat := l.foldl (fun n c => n * 10 + (c.toNat - 48)) 0

def defaultPort (scheme : String) (p : Nat) : Bool :=
  (scheme = "http" && p = 80) || (scheme = "https" && p = 443)

def splitSlash (l : List Char) : List (List Char) :=
  l.foldr
    (fun c acc =>
      if c = '/' then [] :: acc
      else match acc with
        | [] => [[c]]
        | a :: rest => (c :: a) :: rest)
    [[]]

def parseAuthority (scheme : String) (auth : List Char) : Option (String × Option Nat) :=
  if auth.contains '@' then none else
  let hp := takeUntil (fun c => c = ':') auth
  match hp.1, hp.2 with
  | [], _ => none
  | hostCs, rest =>
    if !hostCs.all isHostChar then none else
    let host := String.mk (hostCs.map Char.toLower)
    match rest with
    | [] => some (host, none)
    | _ :: portCs =>
      if portCs ≠ [] && portCs.all Char.isDigit then
        let p := digitsToNat portCs
        some (host, if defaultPort scheme p then none else some p)
      else none

def parsePQF (scheme host : String) (port : Option Nat) (rest : List Char) : Option URLParts :=
  let pq := takeUntil (fun c => c = '?' || c = '#') rest
  let pathCs := pq.1
  if !pathCs.all isPathChar then none else
  let segs := splitSlash pathCs
  if segs.any (fun s => s = ['.'] || s = ['.', '.']) then none else
  let path := if pathCs = [] then "/" else String.mk pathCs
  match pq.2 with
  | [] => some ⟨scheme, host, port, path, none, none⟩
  | '?' :: qrest =>
    let qf := takeUntil (fun c => c = '#') qrest
    if !qf.1.all isQueryChar then none else
    let q := String.mk qf.1
    match qf.2 with
    | [] => some ⟨scheme, host, port, path, some q, none⟩
    | _ :: frag =>
      if frag.all isQueryChar then some ⟨scheme, host, port, path, some q, some (String.mk frag)⟩
      else none
  | _ :: frag =>
      if frag.all isQueryChar then some ⟨scheme, host, port, path, none, some (String.mk frag)⟩
      else none

/-- WHATWG URL parse on the restricted grammar (see the module docstring):
absolute `http`/`https` URL, no userinfo, no dot segments, characters that the
serializer would rewrite are excluded so parse-then-serialize is the identity
on each component up to case and default-port canonicalization. -/
def parseURL (s : String) : Option URLParts :=
  let sr := takeUntil (fun c => c = ':') s.toList
  match sr.1, sr.2 with
  | c0 :: crest, _ :: afterColon =>
    if !(c0.isAlpha && crest.all isSchemeRest) then none else
    let scheme := String.mk ((c0 :: crest).map Char.toLower)
    if !(scheme = "http" || scheme = "https") then none else
    match afterColon with
    | '/' :: '/' :: r3 =>
      let ar := takeUntil (fun c => c = '/' || c = '?' || c = '#') r3
      match parseAuthority scheme ar.1 with
      | none => none
      | some (host, port) => parsePQF scheme host port ar.2
    | _ => none
  | _, _ => none

/-- WHATWG `href` serializer for a parsed URL. -/
def hrefOf (u : URLParts) : String :=
  u.scheme ++ "://" ++ u.host ++
  (match u.port with | some p => ":" ++ toString p | none => "") ++
  u.path ++
  (match u.query with | some q => "?" ++ q | none => "") ++
  (match u.fragment with | some f => "#" ++ f | none => "")

/-- Validate and normalize a URL: `new URL(url).href`, throwing
`Invalid URL: ...` on parse failure (`src/server/parser.ts`, `normalizeUrl`). -/
def normalizeUrl (url : String) : Except String String :=
  match parseURL url with
  | some u => Except.ok (hrefOf u)
  | none => Except.error ("Invalid URL: " ++ url)

/-- The scheme, host, port, path and query of a URL — the canonical form named
by the spec's SourceURL data model, which omits the fragment. -/
def schemeHostPathQuery (s : String) :
    Option (String × String × Option Nat × String × Option String) :=
  (parseURL s).map (fun u => (u.scheme, u.host, u.port, u.path, u.query))

/-! ## Ordered fallback pattern chains (`src/unnamed/part_003`, `matchFirst`) -/

/-- A compiled JS regular expression, abstracted by its match behaviour:
`exec text` is `String.prototype.match` — `none` when the regex does not match,
otherwise the match array (index 0 the full match, then the capture groups,
`none` for a group that did not participate). -/
structure RegExpPat where
  exec : String → Option (List (Option String))

/-- Whether `text.match(pattern)` succeeds with a truthy (present, non-empty)
capture at index `group` — the `match && match[group]` guard of `matchFirst`. -/
def matchHit (text : String) (pat : RegExpPat) (group : Nat) : Bool :=
  match pat.exec text with
  | none => false
  | some m =>
    match m.getD group none with
    | none => false
    | some s => decide (s ≠ "")

/-- JS `String.prototype.trim`: strip leading and trailing whitespace
(modelled for the ASCII whitespace characters). -/
def isJsSpace (c : Char) : Bool :=
  c = ' ' || c = '\t' || c = '\n' || c = '\r' || c = '\x0b' || c = '\x0c'

def jsTrim (s : String) : String :=
  String.mk (((s.toList.dropWhile isJsSpace).reverse.dropWhile isJsSpace).reverse)

/-- Try multiple regex patterns and return the first match's capture group
(`src/unnamed/part_003`, `matchFirst`): for each pattern in order, if
`text.match(pattern)` succeeds and `match[group]` is truthy, return
`match[group].trim()`; otherwise fall through to the next pattern; `null`
when the chain is exhausted. -/
def matchFirst (text : String) (patterns : List RegExpPat) (group : Nat) : Option String :=
  match patterns with
  | [] => none
  | pat :: rest =>
    match pat.exec text with
    | some m =>
      (match m.getD group none with
       | some s => if s ≠ "" then some (jsTrim s) else matchFirst text rest group
       | none => matchFirst text rest group)
    | none => matchFirst text rest group

/-! ## Retry with exponential backoff (`src/server/parser.ts`, `retryWithBackoff`) -/

/-- Instrumented outcome of a `retryWithBackoff` run: the value returned or
error thrown (`Except.error none` standing for the fallback
`Error('Max retries exceeded')`), how many times the wrapped operation was
invoked, and the backoff delays slept between consecutive attempts. -/
structure RetryTrace (ε α : Type) where
  result : Except (Option ε) α
  invocations : Nat
  delays : List Nat

def retryAux {ε α : Type} (fn : Nat → Except ε α) (initialDelay : Nat) :
    Nat → Nat → Option ε → RetryTrace ε α
  | 0, _, lastError => ⟨Except.error lastError, 0, []⟩
  | fuel + 1, attempt, _ =>
    match fn attempt with
    | Except.ok a => ⟨Except.ok a, 1, []⟩
    | Except.error e =>
      match fuel with
      | 0 => ⟨Except.error (some e), 1, []⟩
      | _ + 1 =>
        let d := initialDelay * 2 ^ attempt
        let rest := retryAux fn initialDelay fuel (attempt + 1) (some e)
        ⟨rest.result, rest.invocations + 1, d :: rest.delays⟩

/-- Retry logic with exponential backoff: up to `maxRetries` attempts of `fn`
(the attempt index passed to `fn` distinguishes successive invocations of the
wrapped thunk), sleeping `initialDelay * 2 ^ attempt` after each failed attempt
that is not the last, finally rethrowing the last error.  The fuel argument of
`retryAux` is `maxRetries - attempt`, so the loop guard `attempt < maxRetries`
is fuel positivity and `attempt < maxRetries - 1` is fuel at least two. -/
def retryWithBackoff {ε α : Type} (fn : Nat → Except ε α) (maxRetries initialDelay : Nat) :
    RetryTrace ε α :=
  retryAux fn initialDelay maxRetries 0 none

/-! ## Platform registry and extraction (`src/server/parser.ts`) -/

/-- One platform profile: the vendor name and the literal inside its
`urlPattern` regex (each registered pattern is `/literal/i`, a case-insensitive
substring test).  The profile's `extractionLogic` is browser-bound and is
abstracted as the render argument of `extractRaceResults`. -/
structure ParserConfig where
  name : String
  urlPattern : String
deriving Repr, DecidableEq

/-- Partial extraction output of a profile's extraction logic
(`Partial<RaceResultData>` without the platform field). -/
structure PageData where
  name : Option String
  category : Option String
  finishTime : Option String
  bibNumber : Option String
  rankOverall : Option Int
  rankCategory : Option Int
  pace : Option String
deriving Repr, DecidableEq

/-- Normalized extraction output (`RaceResultData` of `src/server/parser.ts`). -/
structure RaceResultData where
  name : Option String
  category : Option String
  finishTime : Option String
  bibNumber : Option String
  rankOverall : Option Int
  rankCategory : Option Int
  pace : Option String
  platform : String
deriving Repr, DecidableEq

def startsWithCs : List Char → List Char → Bool
  | [], _ => true
  | _ :: _, [] => false
  | p :: ps, c :: cs => p = c && startsWithCs ps cs

def containsCs (pat : List Char) : List Char → Bool
  | [] => startsWithCs pat []
  | c :: cs => startsWithCs pat (c :: cs) || containsCs pat cs

/-- The `urlPattern.test(url)` of a registered profile: each registered pattern
is a case-insensitive literal (dots escaped), so the test is substring
containment after lower-casing. -/
def regexTest (cfg : ParserConfig) (url : String) : Bool :=
  containsCs cfg.urlPattern.toList (url.toList.map Char.toLower)

/-- The platform registry `PARSERS` of `src/server/parser.ts`: the single
Sports Timing Solutions profile with pattern `/sportstimingsolutions\.in/i`. -/
def PARSERS : List ParserConfig :=
  [{ name := "Sports Timing Solutions", urlPattern := "sportstimingsolutions.in" }]

/-- Detect which platform a URL belongs to: first profile in registration
order whose pattern test accepts the URL (`src/server/parser.ts`,
`detectPlatform`). -/
def detectPlatform (url : String) : Option ParserConfig :=
  PARSERS.find? (fun cfg => regexTest cfg url)

/-- JS `value || null` on an optional string: the empty string is falsy. -/
def jsFalsyStr : Option String → Option String
  | some s => if s = "" then none else some s
  | none => none

/-- JS `value || null` on an optional number: zero is falsy. -/
def jsFalsyInt : Option Int → Option Int
  | some n => if n = 0 then none else some n
  | none => none

/-- The final result assembly of `extractRaceResults`: every field passes
through `|| null`, so falsy partial values (absent, empty string, zero)
become null. -/
def finalizeData (r : PageData) (platformName : String) : RaceResultData :=
  { name := jsFalsyStr r.name
    category := jsFalsyStr r.category
    finishTime := jsFalsyStr r.finishTime
    bibNumber := jsFalsyStr r.bibNumber
    rankOverall := jsFalsyInt r.rankOverall
    rankCategory := jsFalsyInt r.rankCategory
    pace := jsFalsyStr r.pace
    platform := platformName }

/-- Extract race results from a URL (`src/server/parser.ts`,
`extractRaceResults`): unsupported platform throws before any render; otherwise
the render/extraction outcome (the `render` argument: page navigation plus the
profile's extraction logic, which may throw) is normalized by `finalizeData`. -/
def extractRaceResults (url : String) (render : Except String PageData) :
    Except String RaceResultData :=
  match detectPlatform url with
  | none => Except.error ("Unsupported race timing platform: " ++ url)
  | some cfg =>
    match render with
    | Except.error e => Except.error e
    | Except.ok r => Except.ok (finalizeData r cfg.name)

/-! ## Database model (`src/server/db.ts`, `src/drizzle/schema.ts`) -/

inductive JobStatus | queued | processing | completed | failed
deriving Repr, DecidableEq

inductive ResultStatus | completed | pending | error
deriving Repr, DecidableEq

/-- One row of the `race_results` table as inserted by the server. -/
structure ResultRow where
  url : String
  urlHash : String
  jobId : Option String
  name : Option String
  category : Option String
  finishTime : Option String
  bibNumber : Option String
  rankOverall : Option Int
  rankCategory : Option Int
  pace : Option String
  platform : String
  status : ResultStatus
  errorMessage : Option String
  extractedAt : Nat
  cachedAt : Nat
  expiresAt : Nat
  userId : Nat
deriving Repr, DecidableEq

/-- One row of the `processing_jobs` table. -/
structure JobRow where
  jobId : String
  totalUrls : Nat
  processedUrls : Nat
  successCount : Nat
  errorCount : Nat
  status : JobStatus
  userId : Nat
  createdAt : Nat
  completedAt : Option Nat
deriving Repr, DecidableEq

/-- Cache lookup (`src/server/db.ts`, `getCachedResult`): the first
`race_results` row (in insertion order, `limit 1`) whose `urlHash` and
`userId` match, whose expiry lies strictly in the future (`gt(expiresAt, now)`)
and whose status is `completed` (only successful extractions are served). -/
def getCachedResult (rows : List ResultRow) (urlHash : String) (userId : Nat) (now : Nat) :
    Option ResultRow :=
  (rows.filter (fun r =>
    decide (r.urlHash = urlHash ∧ r.userId = userId ∧ now < r.expiresAt ∧
            r.status = ResultStatus.completed))).head?

/-- Fetch a job's result rows (`src/server/db.ts`, `getResultsByJobId`):
SQL `eq(raceResults.jobId, jobId)` — a row whose `jobId` column is NULL never
matches. -/
def getResultsByJobId (rows : List ResultRow) (jobId : String) : List ResultRow :=
  rows.filter (fun r => decide (r.jobId = some jobId))

/-- The 24-hour cache TTL in milliseconds
(`expiresAt.setHours(expiresAt.getHours() + 24)`). -/
def cacheTtlMs : Nat := 86400000

/-- The row inserted on successful extraction in `processUrls`
(`src/server/routers.ts` lines 329–346).  Note the insert passes no `jobId`,
so the column is NULL. -/
def successRow (nurl h : String) (data : RaceResultData) (now userId : Nat) : ResultRow :=
  { url := nurl, urlHash := h, jobId := none
    name := data.name, category := data.category, finishTime := data.finishTime
    bibNumber := data.bibNumber, rankOverall := data.rankOverall
    rankCategory := data.rankCategory, pace := data.pace, platform := data.platform
    status := ResultStatus.completed, errorMessage := none
    extractedAt := now, cachedAt := now, expiresAt := now + cacheTtlMs, userId := userId }

/-- The row inserted by the catch handler in `processUrls`
(`src/server/routers.ts` lines 359–376).  Also without `jobId`. -/
def errorRow (nurl h msg : String) (now userId : Nat) : ResultRow :=
  { url := nurl, urlHash := h, jobId := none
    name := none, category := none, finishTime := none, bibNumber := none
    rankOverall := none, rankCategory := none, pace := none, platform := "unknown"
    status := ResultStatus.error, errorMessage := some msg
    extractedAt := now, cachedAt := now, expiresAt := now + cacheTtlMs, userId := userId }

/-! ## The background batch loop (`src/server/routers.ts`, `processUrls`) -/

/-- The persistent state touched by one job's processing: the `race_results`
rows (insertion order) and the job's `processing_jobs` row. -/
structure JobDb where
  results : List ResultRow
  job : JobRow
deriving Repr, DecidableEq

/-- Outcome of a `processUrls` run: the final database state, the job row as
observed after each `updateProcessingJob` call, and whether the async function
rejected (an exception escaped the per-URL try/catch, ending processing early;
the caller of `processUrls` only logs such a rejection). -/
structure ProcRun where
  db : JobDb
  observations : List JobRow
  aborted : Bool
deriving Repr, DecidableEq

/-- An `updateProcessingJob` call that sets the three counters. -/
def setCounters (j : JobRow) (p s e : Nat) : JobRow :=
  { j with processedUrls := p, successCount := s, errorCount := e }

/-- The per-URL loop of `processUrls`.  `p`, `s`, `e` are the local
`processedCount`, `successCount`, `errorCount`.  Control flow per URL:
normalize and hash; on a cache hit count a success and continue with no
insert; otherwise run the retry-wrapped extraction (the `ext` oracle — in the
server this is `retryWithBackoff(() => extractRaceResults(normalizedUrl))`);
success inserts a completed row, an extraction error reaches the catch
handler, which re-runs `normalizeUrl(url)` (succeeding again, since `url`
normalized in the try body) and inserts an error row.  A URL whose
normalization fails throws in the try body, and the catch handler's own
`normalizeUrl(url)` call then throws out of the loop: the run aborts with no
row written and no counter update for that URL.  After the last URL the job is
marked completed. -/
def processLoop (ext : String → Except String RaceResultData) (userId now : Nat) :
    List String → JobDb → Nat → Nat → Nat → List JobRow → ProcRun
  | [], st, _, _, _, obs =>
    let jf := { st.job with status := JobStatus.completed, completedAt := some now }
    ⟨⟨st.results, jf⟩, obs ++ [jf], false⟩
  | url :: rest, st, p, s, e, obs =>
    match normalizeUrl url with
    | Except.error _ => ⟨st, obs, true⟩
    | Except.ok nurl =>
      let h := hashUrl nurl
      match getCachedResult st.results h userId now with
      | some _ =>
        let jm := setCounters st.job (p + 1) (s + 1) e
        processLoop ext userId now rest ⟨st.results, jm⟩ (p + 1) (s + 1) e (obs ++ [jm])
      | none =>
        match ext nurl with
        | Except.ok data =>
          let rows := st.results ++ [successRow nurl h data now userId]
          let jm := setCounters st.job (p + 1) (s + 1) e
          processLoop ext userId now rest ⟨rows, jm⟩ (p + 1) (s + 1) e (obs ++ [jm])
        | Except.error msg =>
          let rows := st.results ++ [errorRow nurl h msg now userId]
          let jm := setCounters st.job (p + 1) s (e + 1)
          processLoop ext userId now rest ⟨rows, jm⟩ (p + 1) s (e + 1) (obs ++ [jm])

/-- Background processing of a batch (`src/server/routers.ts`, `processUrls`):
set the job to `processing`, run the per-URL loop with zeroed local counters,
finally mark the job completed.  `db0.job` is the row `updateProcessingJob`
targets (the job created by `extractResults` for this batch). -/
def processUrls (ext : String → Except String RaceResultData) (urls : List String)
    (userId now : Nat) (db0 : JobDb) : ProcRun :=
  let j1 := { db0.job with status := JobStatus.processing }
  processLoop ext userId now urls ⟨db0.results, j1⟩ 0 0 0 [j1]

/-- Mapping of the value a `retryWithBackoff` run throws back to the message
the catch handler reads (`error instanceof Error ? error.message : ...`);
`none` is the fallback `Error('Max retries exceeded')`. -/
def retryErrMsg : Option String → String
  | some e => e
  | none => "Max retries exceeded"

def liftRetryResult {α : Type} : Except (Option String) α → Except String α
  | Except.ok a => Except.ok a
  | Except.error e => Except.error (retryErrMsg e)

/-- The extraction oracle `processUrls` actually uses:
`retryWithBackoff(() => extractRaceResults(normalizedUrl))` with the default
budget (3 attempts, 1000 ms initial delay), the per-invocation render outcomes
supplied by `pg`. -/
def runRetryExtract (pg : Nat → Except String PageData) (u : String) :
    Except String RaceResultData :=
  liftRetryResult (retryWithBackoff (fun i => extractRaceResults u (pg i)) 3 1000).result

/-- Rank of a job status along the forward order
`queued → processing → {completed, failed}` (both final states terminal). -/
def statusRank : JobStatus → Nat
  | JobStatus.queued => 0
  | JobStatus.processing => 1
  | JobStatus.completed => 2
  | JobStatus.failed => 2

/-! ## Concrete instances used by witnesses and counterexamples -/

/-- A fresh job row as `extractResults` creates it for a batch of `n` URLs. -/
def freshJob (n : Nat) : JobRow :=
  { jobId := "job1", totalUrls := n, processedUrls := 0, successCount := 0
    errorCount := 0, status := JobStatus.queued, userId := 1, createdAt := 0
    completedAt := none }

/-- An empty database holding only the fresh job row for `n` URLs. -/
def freshDb (n : Nat) : JobDb := { results := [], job := freshJob n }

/-- Sample successful extraction output. -/
def sampleData : RaceResultData :=
  { name := some "A", category := none, finishTime := none, bibNumber := none
    rankOverall := some 5, rankCategory := none, pace := none
    platform := "Sports Timing Solutions" }

/-- Page data whose rank fields and string fields are falsy. -/
def falsyPage : PageData :=
  { name := some "", category := some "x", finishTime := none, bibNumber := none
    rankOverall := some 0, rankCategory := some 0, pace := none }

/-- A supported URL (matches the Sports Timing Solutions profile and is its
own normal form). -/
def stsUrl : String := "https://sportstimingsolutions.in/x"

/-- A well-formed URL whose host matches no registered profile. -/
def c7url : String := "https://example.com/results"

/-- The error `extractRaceResults` throws for `c7url`. -/
def c7msg : String := "Unsupported race timing platform: https://example.com/results"

/-- Cache row for `stsUrl` written at time 0 (so it expires at `cacheTtlMs`). -/
def stsCacheRow : ResultRow := successRow stsUrl (hashUrl stsUrl) sampleData 0 1

/-- Database already holding an unexpired successful cache entry for `stsUrl`. -/
def cachedDb : JobDb := { results := [stsCacheRow], job := freshJob 1 }

/-- Cache row used by the `getCachedResult` boundary witness: expires at 1000. -/
def bdRow : ResultRow :=
  { url := "u", urlHash := "h", jobId := none
    name := none, category := none, finishTime := none, bibNumber := none
    rankOverall := none, rankCategory := none, pace := none, platform := "p"
    status := ResultStatus.completed, errorMessage := none
    extractedAt := 0, cachedAt := 0, expiresAt := 1000, userId := 1 }

/-- A pattern-chain stub: matches `"page"` with capture `"valA"`. -/
def patA : RegExpPat :=
  ⟨fun t => if t = "page" then some [some "full", some "valA"] else none⟩

/-- A second pattern-chain stub that also matches `"page"`, capturing `"valB"`. -/
def patB : RegExpPat :=
  ⟨fun t => if t = "page" then some [some "full", some "valB"] else none⟩

/-- A retry stub that fails twice, then succeeds with 7. -/
def flaky2 : Nat → Except String Nat :=
  fun i => if i < 2 then Except.error "boom" else Except.ok 7

/-! ## Helper lemmas -/

lemma matchFirst_cons_hit (text : String) (pat : RegExpPat) (rest : List RegExpPat)
    (group : Nat) (h : matchHit text pat group = true) :
    matchFirst text (pat :: rest) group = matchFirst text [pat] group := by
  cases he : pat.exec text with
  | none => simp only [matchHit, he] at h; exact absurd h Bool.false_ne_true
  | some m =>
    cases hg : m.getD group none with
    | none => simp only [matchHit, he, hg] at h; exact absurd h Bool.false_ne_true
    | some s =>
      simp only [matchHit, he, hg, decide_eq_true_eq] at h
      simp only [matchFirst, he, hg, if_pos h]

lemma matchFirst_cons_miss (text : String) (pat : RegExpPat) (rest : List RegExpPat)
    (group : Nat) (h : matchHit text pat group = false) :
    matchFirst text (pat :: rest) group = matchFirst text rest group := by
  cases he : pat.exec text with
  | none => simp only [matchFirst, he]
  | some m =>
    cases hg : m.getD group none with
    | none => simp only [matchFirst, he, hg]
    | some s =>
      simp only [matchHit, he, hg, decide_eq_false_iff_not, not_not] at h
      simp only [matchFirst, he, hg, h, ne_eq, not_true_eq_false, if_false]

lemma matchFirst_single_isSome (text : String) (pat : RegExpPat) (group : Nat)
    (h : matchHit text pat group = true) :
    (matchFirst text [pat] group).isSome = true := by
  cases he : pat.exec text with
  | none => simp only [matchHit, he] at h; exact absurd h Bool.false_ne_true
  | some m =>
    cases hg : m.getD group none with
    | none => simp only [matchHit, he, hg] at h; exact absurd h Bool.false_ne_true
    | some s =>
      simp only [matchHit, he, hg, decide_eq_true_eq] at h
      simp only [matchFirst, he, hg, if_pos h, Option.isSome_some]

lemma matchFirst_all_miss (text : String) (group : Nat) :
    ∀ pats : List RegExpPat, (∀ q ∈ pats, matchHit text q group = false) →
      matchFirst text pats group = none := by
  intro pats
  induction pats with
  | nil => intro _; rfl
  | cons pat rest ih =>
    intro hall
    rw [matchFirst_cons_miss text pat rest group (hall pat (List.mem_cons_self pat rest))]
    exact ih (fun q hq => hall q (List.mem_cons_of_mem pat hq))

/-- C4: for every field pattern chain and page text, patterns are tried in
order and the first whose match succeeds with a truthy designated capture
determines the value — a chain `pre ++ pat :: post` with all of `pre` missing
and `pat` hitting extracts exactly what `pat` alone would, and that value is
present; in particular for `[A, B]` with `A` hitting, `B` is never consulted;
and if no pattern in the chain hits the result is `null`, without raising
(`matchFirst` is total). -/
theorem matchFirst_chain_spec (text : String) (group : Nat) :
    (∀ pre pat post, (∀ q ∈ pre, matchHit text q group = false) →
      matchHit text pat group = true →
      matchFirst text (pre ++ pat :: post) group = matchFirst text [pat] group
        ∧ (matchFirst text [pat] group).isSome = true)
    ∧ (∀ A B : RegExpPat, matchHit text A group = true →
        matchFirst text [A, B] group = matchFirst text [A] group)
    ∧ (∀ pats : List RegExpPat, (∀ q ∈ pats, matchHit text q group = false) →
        matchFirst text pats group = none) := by
  refine ⟨?_, ?_, matchFirst_all_miss text group⟩
  · intro pre
    induction pre with
    | nil =>
      intro pat post _ hhit
      exact ⟨matchFirst_cons_hit text pat post group hhit,
             matchFirst_single_isSome text pat group hhit⟩
    | cons q pre ih =>
      intro pat post hmiss hhit
      have hq := hmiss q (List.mem_cons_self q _)
      have hrest := ih pat post (fun r hr => hmiss r (List.mem_cons_of_mem q hr)) hhit
      rw [List.cons_append, matchFirst_cons_miss text q _ group hq]
      exact hrest
  · intro A B hhit
    exact matchFirst_cons_hit text A [B] group hhit

/-- Witness for C4 at a concrete chain: both stub patterns match `"page"`,
and the two-pattern chain extracts what the first alone would — `"valA"`. -/
theorem matchFirst_chain_witness :
    matchHit "page" patA 1 = true ∧ matchHit "page" patB 1 = true
    ∧ matchFirst "page" [patA, patB] 1 = matchFirst "page" [patA] 1
    ∧ matchFirst "page" [patA] 1 = some "valA" :=
  ⟨by decide, by decide,
   (matchFirst_chain_spec "page" 1).2.1 patA patB (by decide), by decide⟩

/-! ## Retry lemmas -/

lemma retryAux_invocations_le {ε α : Type} (fn : Nat → Except ε α) (d : Nat) :
    ∀ fuel a le, (retryAux fn d fuel a le).invocations ≤ fuel := by
  intro fuel
  induction fuel with
  | zero => intro a le; simp [retryAux]
  | succ f ih =>
    intro a le
    simp only [retryAux]
    cases hf : fn a with
    | ok v => simp
    | error e =>
      cases f with
      | zero => simp
      | succ f' =>
        simp only []
        have := ih (a + 1) (some e)
        omega

lemma retryAux_delays_shape {ε α : Type} (fn : Nat → Except ε α) (d : Nat) :
    ∀ fuel a le, ∃ m, (retryAux fn d fuel a le).delays
      = (List.range m).map (fun j => d * 2 ^ (a + j)) := by
  intro fuel
  induction fuel with
  | zero => intro a le; exact ⟨0, by simp [retryAux]⟩
  | succ f ih =>
    intro a le
    simp only [retryAux]
    cases hf : fn a with
    | ok v => exact ⟨0, by simp⟩
    | error e =>
      cases f with
      | zero => exact ⟨0, by simp⟩
      | succ f' =>
        obtain ⟨m, hm⟩ := ih (a + 1) (some e)
        refine ⟨m + 1, ?_⟩
        simp only [hm, List.range_succ_eq_map, List.map_cons, List.map_map]
        congr 1
        exact List.map_congr_left (fun j _ => by
          simp only [Function.comp_apply, Nat.succ_eq_add_one]
          rw [show a + 1 + j = a + (j + 1) by omega])

lemma retryAux_ok_step {ε α : Type} (fn : Nat → Except ε α) (d a fuel : Nat) (le : Option ε)
    (v : α) (h : fn a = Except.ok v) :
    retryAux fn d (fuel + 1) a le = ⟨Except.ok v, 1, []⟩ := by
  simp only [retryAux, h]

lemma retryAux_last_fail {ε α : Type} (fn : Nat → Except ε α) (d a : Nat) (le : Option ε)
    (e : ε) (h : fn a = Except.error e) :
    retryAux fn d 1 a le = ⟨Except.error (some e), 1, []⟩ := by
  simp only [retryAux, h]

lemma retryAux_err_step {ε α : Type} (fn : Nat → Except ε α) (d a f : Nat) (le : Option ε)
    (e : ε) (h : fn a = Except.error e) :
    retryAux fn d (f + 2) a le =
      ⟨(retryAux fn d (f + 1) (a + 1) (some e)).result,
       (retryAux fn d (f + 1) (a + 1) (some e)).invocations + 1,
       d * 2 ^ a :: (retryAux fn d (f + 1) (a + 1) (some e)).delays⟩ := by
  simp only [retryAux, h]

lemma retryAux_all_fail {ε α : Type} (fn : Nat → Except ε α) (d : Nat) (errs : Nat → ε) :
    ∀ fuel a le, (∀ j, j < fuel → fn (a + j) = Except.error (errs (a + j))) → 0 < fuel →
      (retryAux fn d fuel a le).result = Except.error (some (errs (a + fuel - 1)))
        ∧ (retryAux fn d fuel a le).invocations = fuel := by
  intro fuel
  induction fuel with
  | zero => intro a le _ h0; exact absurd h0 (by omega)
  | succ f ih =>
    intro a le hall _
    have ha : fn a = Except.error (errs a) := by simpa using hall 0 (by omega)
    cases f with
    | zero =>
      rw [retryAux_last_fail fn d a le (errs a) ha]
      exact ⟨by simp, rfl⟩
    | succ f' =>
      have hrec := ih (a + 1) (some (errs a))
        (fun j hj => by
          have := hall (j + 1) (by omega)
          rwa [show a + (j + 1) = a + 1 + j by omega] at this)
        (by omega)
      rw [show f' + 1 + 1 = f' + 2 from rfl, retryAux_err_step fn d a f' le (errs a) ha]
      refine ⟨?_, ?_⟩
      · show (retryAux fn d (f' + 1) (a + 1) (some (errs a))).result = _
        rw [hrec.1, show a + 1 + (f' + 1) - 1 = a + (f' + 1 + 1) - 1 by omega]
      · show (retryAux fn d (f' + 1) (a + 1) (some (errs a))).invocations + 1 = f' + 1 + 1
        rw [hrec.2]

lemma retryAux_succeeds {ε α : Type} (fn : Nat → Except ε α) (d : Nat) (errs : Nat → ε)
    (v : α) :
    ∀ k fuel a le, (∀ j, j < k → fn (a + j) = Except.error (errs (a + j))) →
      fn (a + k) = Except.ok v → k < fuel →
      (retryAux fn d fuel a le).result = Except.ok v
        ∧ (retryAux fn d fuel a le).invocations = k + 1
        ∧ (retryAux fn d fuel a le).delays.length = k := by
  intro k
  induction k with
  | zero =>
    intro fuel a le _ hok hk
    obtain ⟨f, rfl⟩ : ∃ f, fuel = f + 1 := ⟨fuel - 1, by omega⟩
    rw [retryAux_ok_step fn d a f le v (by simpa using hok)]
    exact ⟨rfl, rfl, rfl⟩
  | succ k ih =>
    intro fuel a le hall hok hk
    have ha : fn a = Except.error (errs a) := by simpa using hall 0 (by omega)
    obtain ⟨f', rfl⟩ : ∃ f', fuel = f' + 2 := ⟨fuel - 2, by omega⟩
    have hrec := ih (f' + 1) (a + 1) (some (errs a))
      (fun j hj => by
        have := hall (j + 1) (by omega)
        rwa [show a + (j + 1) = a + 1 + j by omega] at this)
      (by rwa [show a + 1 + k = a + (k + 1) by omega])
      (by omega)
    rw [retryAux_err_step fn d a f' le (errs a) ha]
    refine ⟨?_, ?_, ?_⟩
    · show (retryAux fn d (f' + 1) (a + 1) (some (errs a))).result = _
      exact hrec.1
    · show (retryAux fn d (f' + 1) (a + 1) (some (errs a))).invocations + 1 = k + 1 + 1
      rw [hrec.2.1]
    · show (d * 2 ^ a :: (retryAux fn d (f' + 1) (a + 1) (some (errs a))).delays).length = k + 1
      simp [hrec.2.2]

/-- C5: the retry wrapper invokes the operation at most `maxRetries` times;
the delay slept before attempt `i + 1` is `initialDelay * 2 ^ i`; if every
attempt fails the last observed failure is rethrown after exactly
`maxRetries` invocations; and an operation that fails on the first `k`
attempts and succeeds on attempt `k < maxRetries` yields its value after
exactly `k + 1` invocations (so a fail-twice-then-succeed operation under a
budget of 3 succeeds on the third invocation). -/
theorem retryWithBackoff_spec {ε α : Type} (fn : Nat → Except ε α) (n d k : Nat)
    (errs : Nat → ε) (v : α) :
    (retryWithBackoff fn n d).invocations ≤ n
    ∧ (∀ i (h : i < (retryWithBackoff fn n d).delays.length),
        (retryWithBackoff fn n d).delays.get ⟨i, h⟩ = d * 2 ^ i)
    ∧ ((∀ j, j < n → fn j = Except.error (errs j)) → 0 < n →
        (retryWithBackoff fn n d).result = Except.error (some (errs (n - 1)))
          ∧ (retryWithBackoff fn n d).invocations = n)
    ∧ ((∀ j, j < k → fn j = Except.error (errs j)) → fn k = Except.ok v → k < n →
        (retryWithBackoff fn n d).result = Except.ok v
          ∧ (retryWithBackoff fn n d).invocations = k + 1
          ∧ (retryWithBackoff fn n d).delays.length = k) := by
  refine ⟨retryAux_invocations_le fn d n 0 none, ?_, ?_, ?_⟩
  · intro i h
    obtain ⟨m, hm⟩ := retryAux_delays_shape fn d n 0 none
    simp only [retryWithBackoff] at h ⊢
    rw [List.get_eq_getElem]
    simp only [hm] at h ⊢
    simp
  · intro hall h0
    have := retryAux_all_fail fn d errs n 0 none (fun j hj => by simpa using hall j hj) h0
    simpa using this
  · intro hall hok hk
    have := retryAux_succeeds fn d errs v k n 0 none
      (fun j hj => by simpa using hall j hj) (by simpa using hok) hk
    simpa using this

/-- Witness for C5: the fail-twice-then-succeed stub under a budget of 3
attempts returns the success after exactly 3 invocations. -/
theorem retryWithBackoff_spec_witness :
    (retryWithBackoff flaky2 3 1000).result = Except.ok 7
      ∧ (retryWithBackoff flaky2 3 1000).invocations = 3 := by
  have h := (retryWithBackoff_spec flaky2 3 1000 2 (fun _ => "boom") 7).2.2.2
    (by decide) (by decide) (by decide)
  exact ⟨h.1, h.2.1⟩

/-- C6: a cache lookup returns a result if and only if some row exists for
that (owner, urlHash) pair that is marked successful and has `now < expiry`;
moreover any row returned belongs to that owner and hash, is successful and
unexpired — so two different owners never share cached results. -/
theorem getCachedResult_spec (rows : List ResultRow) (h : String) (u now : Nat) :
    ((getCachedResult rows h u now).isSome = true ↔
      ∃ r ∈ rows, r.urlHash = h ∧ r.userId = u ∧ now < r.expiresAt
        ∧ r.status = ResultStatus.completed)
    ∧ (∀ r, getCachedResult rows h u now = some r →
        r ∈ rows ∧ r.urlHash = h ∧ r.userId = u ∧ now < r.expiresAt
          ∧ r.status = ResultStatus.completed) := by
  have hsound : ∀ r, getCachedResult rows h u now = some r →
      r ∈ rows ∧ r.urlHash = h ∧ r.userId = u ∧ now < r.expiresAt
        ∧ r.status = ResultStatus.completed := by
    intro r hr
    rw [getCachedResult] at hr
    have hmem := List.mem_of_mem_head? (Option.mem_def.mpr hr)
    obtain ⟨hin, hcond⟩ := List.mem_filter.mp hmem
    exact ⟨hin, by simpa using hcond⟩
  refine ⟨⟨?_, ?_⟩, hsound⟩
  · intro hs
    obtain ⟨r, hr⟩ := Option.isSome_iff_exists.mp hs
    have hh := hsound r hr
    exact ⟨r, hh.1, hh.2⟩
  · intro ⟨r, hmem, hcond⟩
    have hf : r ∈ rows.filter (fun r =>
        decide (r.urlHash = h ∧ r.userId = u ∧ now < r.expiresAt ∧
                r.status = ResultStatus.completed)) :=
      List.mem_filter.mpr ⟨hmem, by simpa using hcond⟩
    rw [getCachedResult, List.head?_isSome]
    exact List.ne_nil_of_mem hf

/-- Witness for C6 at the TTL boundary: with a successful row expiring at
1000, a lookup by its owner at 999 hits, at 1001 misses, and a lookup by a
different owner at 999 also misses. -/
theorem getCachedResult_boundary_witness :
    (getCachedResult [bdRow] "h" 1 999).isSome = true
    ∧ (getCachedResult [bdRow] "h" 1 1001).isSome = false
    ∧ (getCachedResult [bdRow] "h" 2 999).isSome = false := by
  refine ⟨?_, ?_, ?_⟩
  · exact (getCachedResult_spec [bdRow] "h" 1 999).1.mpr ⟨bdRow, by simp, by decide⟩
  · cases hb : (getCachedResult [bdRow] "h" 1 1001).isSome with
    | false => rfl
    | true => exact absurd ((getCachedResult_spec [bdRow] "h" 1 1001).1.mp hb) (by decide)
  · cases hb : (getCachedResult [bdRow] "h" 2 999).isSome with
    | false => rfl
    | true => exact absurd ((getCachedResult_spec [bdRow] "h" 2 999).1.mp hb) (by decide)

/-- C8 counterexample: `http://example.com/a` and `http://example.com/a#x`
agree on scheme, host, port, path and query (the canonical form the claim
names) and are syntactically different, yet they do not normalize to the same
form — `new URL(url).href` keeps the fragment — and consequently their hashes
differ. -/
theorem normalizeUrl_fragment_counterexample :
    schemeHostPathQuery "http://example.com/a" = schemeHostPathQuery "http://example.com/a#x"
    ∧ (schemeHostPathQuery "http://example.com/a").isSome = true
    ∧ "http://example.com/a" ≠ "http://example.com/a#x"
    ∧ normalizeUrl "http://example.com/a" ≠ normalizeUrl "http://example.com/a#x"
    ∧ Except.map hashUrl (normalizeUrl "http://example.com/a")
        ≠ Except.map hashUrl (normalizeUrl "http://example.com/a#x") := by
  refine ⟨by decide, by decide, by decide, by decide, ?_⟩
  decide

/-- C8 amended: `hash(normalize(u))` is stable across repeated calls; two
URLs with equal normalized forms hash identically; and syntactically
different but equivalent URLs whose differences the WHATWG canonicalization
erases (scheme/host letter case, an explicit default port) do normalize to
the same canonical form — but that canonical form is the full `href`,
fragment included, not merely scheme+host+path+query. -/
theorem hashUrl_normalizeUrl_stability (u v : String) :
    Except.map hashUrl (normalizeUrl u) = Except.map hashUrl (normalizeUrl u)
    ∧ (normalizeUrl u = normalizeUrl v →
        Except.map hashUrl (normalizeUrl u) = Except.map hashUrl (normalizeUrl v))
    ∧ normalizeUrl "HTTP://Example.COM:80/path?q=1" = normalizeUrl "http://example.com/path?q=1" :=
  ⟨rfl, fun h => by rw [h], by decide⟩

/-- Witness for C8 (amended) at a concrete pair of equivalent URLs that
normalize identically and therefore hash identically. -/
theorem hashUrl_normalizeUrl_stability_witness :
    Except.map hashUrl (normalizeUrl "HTTP://Example.COM:80/path?q=1")
      = Except.map hashUrl (normalizeUrl "http://example.com/path?q=1") :=
  (hashUrl_normalizeUrl_stability "HTTP://Example.COM:80/path?q=1"
    "http://example.com/path?q=1").2.1 (by decide)

/-- JS falsy coercion facts for the numeric ranks. -/
lemma jsFalsyInt_ne_zero (x : Option Int) : jsFalsyInt x ≠ some 0 := by
  cases x with
  | none => simp [jsFalsyInt]
  | some n =>
    by_cases h : n = 0
    · simp [jsFalsyInt, h]
    · simp [jsFalsyInt, h]

/-- C10: the public extraction function coerces falsy per-field values to
null — a partial rank of 0 and an empty-string capture come back as null, and
no successful `extractRaceResults` output can carry 0 as an overall or
category rank. -/
theorem extractRaceResults_falsy_coercion (url : String) (pg : PageData) (d : RaceResultData)
    (hok : extractRaceResults url (Except.ok pg) = Except.ok d) :
    d.rankOverall ≠ some 0 ∧ d.rankCategory ≠ some 0
    ∧ (pg.rankOverall = some 0 → d.rankOverall = none)
    ∧ (pg.rankCategory = some 0 → d.rankCategory = none)
    ∧ (pg.name = some "" → d.name = none)
    ∧ (pg.category = some "" → d.category = none) := by
  rw [extractRaceResults] at hok
  cases hd : detectPlatform url with
  | none => rw [hd] at hok; exact absurd hok (by simp)
  | some cfg =>
    rw [hd] at hok
    simp only [Except.ok.injEq] at hok
    subst hok
    refine ⟨jsFalsyInt_ne_zero pg.rankOverall, jsFalsyInt_ne_zero pg.rankCategory,
            ?_, ?_, ?_, ?_⟩
    · intro hz; simp [finalizeData, hz, jsFalsyInt]
    · intro hz; simp [finalizeData, hz, jsFalsyInt]
    · intro hz; simp [finalizeData, hz, jsFalsyStr]
    · intro hz; simp [finalizeData, hz, jsFalsyStr]

/-- Witness for C10: on a supported URL whose page data carries rank 0 and an
empty-string name, the extraction returns with both coerced to null. -/
theorem extractRaceResults_falsy_witness :
    extractRaceResults stsUrl (Except.ok falsyPage)
      = Except.ok (finalizeData falsyPage "Sports Timing Solutions")
    ∧ (finalizeData falsyPage "Sports Timing Solutions").rankOverall = none
    ∧ (finalizeData falsyPage "Sports Timing Solutions").name = none := by
  have h1 : extractRaceResults stsUrl (Except.ok falsyPage)
      = Except.ok (finalizeData falsyPage "Sports Timing Solutions") := by decide
  refine ⟨h1, ?_, ?_⟩
  · exact (extractRaceResults_falsy_coercion stsUrl falsyPage _ h1).2.2.1 (by decide)
  · exact (extractRaceResults_falsy_coercion stsUrl falsyPage _ h1).2.2.2.2.1 (by decide)

/-! ## processUrls loop lemmas -/

lemma processLoop_inv (ext : String → Except String RaceResultData) (userId now : Nat) :
    ∀ (urls : List String) (st : JobDb) (p s e : Nat) (obs : List JobRow),
      s + e = p →
      st.job.processedUrls = p → st.job.successCount = s → st.job.errorCount = e →
      p + urls.length ≤ st.job.totalUrls →
      (∀ j ∈ obs, j.successCount + j.errorCount = j.processedUrls
        ∧ j.processedUrls ≤ j.totalUrls) →
      ∀ j ∈ (processLoop ext userId now urls st p s e obs).observations,
        j.successCount + j.errorCount = j.processedUrls ∧ j.processedUrls ≤ j.totalUrls := by
  intro urls
  induction urls with
  | nil =>
    intro st p s e obs hse hp hs he htot hobs j hj
    simp only [processLoop] at hj
    rcases List.mem_append.mp hj with hmem | hmem
    · exact hobs j hmem
    · have hj' : j = { st.job with status := JobStatus.completed, completedAt := some now } := by
        simpa using hmem
      subst hj'
      refine ⟨?_, ?_⟩
      · simp only []
        omega
      · simp only []
        omega
  | cons url rest ih =>
    intro st p s e obs hse hp hs he htot hobs
    simp only [List.length_cons] at htot
    cases hnu : normalizeUrl url with
    | error msg =>
      intro j hj
      simp only [processLoop, hnu] at hj
      exact hobs j hj
    | ok nurl =>
      cases hc : getCachedResult st.results (hashUrl nurl) userId now with
      | some r =>
        intro j hj
        simp only [processLoop, hnu, hc] at hj
        refine ih ⟨st.results, setCounters st.job (p + 1) (s + 1) e⟩ (p + 1) (s + 1) e
          (obs ++ [setCounters st.job (p + 1) (s + 1) e]) (by omega)
          (by simp [setCounters]) (by simp [setCounters]) (by simp [setCounters])
          (by simp [setCounters]; omega) ?_ j hj
        intro j' hj'
        rcases List.mem_append.mp hj' with hmem | hmem
        · exact hobs j' hmem
        · have : j' = setCounters st.job (p + 1) (s + 1) e := by simpa using hmem
          subst this
          simp [setCounters]
          omega
      | none =>
        cases hx : ext nurl with
        | ok data =>
          intro j hj
          simp only [processLoop, hnu, hc, hx] at hj
          refine ih ⟨st.results ++ [successRow nurl (hashUrl nurl) data now userId],
              setCounters st.job (p + 1) (s + 1) e⟩ (p + 1) (s + 1) e
            (obs ++ [setCounters st.job (p + 1) (s + 1) e]) (by omega)
            (by simp [setCounters]) (by simp [setCounters]) (by simp [setCounters])
            (by simp [setCounters]; omega) ?_ j hj
          intro j' hj'
          rcases List.mem_append.mp hj' with hmem | hmem
          · exact hobs j' hmem
          · have : j' = setCounters st.job (p + 1) (s + 1) e := by simpa using hmem
            subst this
            simp [setCounters]
            omega
        | error msg =>
          intro j hj
          simp only [processLoop, hnu, hc, hx] at hj
          refine ih ⟨st.results ++ [errorRow nurl (hashUrl nurl) msg now userId],
              setCounters st.job (p + 1) s (e + 1)⟩ (p + 1) s (e + 1)
            (obs ++ [setCounters st.job (p + 1) s (e + 1)]) (by omega)
            (by simp [setCounters]) (by simp [setCounters]) (by simp [setCounters])
            (by simp [setCounters]; omega) ?_ j hj
          intro j' hj'
          rcases List.mem_append.mp hj' with hmem | hmem
          · exact hobs j' hmem
          · have : j' = setCounters st.job (p + 1) s (e + 1) := by simpa using hmem
            subst this
            simp [setCounters]
            omega

/-- C3: for a job created for this batch (counters zeroed, `totalUrls` the
batch size), at every observation point of the run — the job row after every
`updateProcessingJob` call, during and after processing —
`successCount + errorCount = processedUrls` and `processedUrls ≤ totalUrls`. -/
theorem processUrls_counter_invariant (ext : String → Except String RaceResultData)
    (urls : List String) (userId now : Nat) (db0 : JobDb)
    (h0 : db0.job.processedUrls = 0) (h1 : db0.job.successCount = 0)
    (h2 : db0.job.errorCount = 0) (h3 : db0.job.totalUrls = urls.length) :
    ∀ j ∈ (processUrls ext urls userId now db0).observations,
      j.successCount + j.errorCount = j.processedUrls ∧ j.processedUrls ≤ j.totalUrls := by
  simp only [processUrls]
  refine processLoop_inv ext userId now urls _ 0 0 0 _ (by omega)
    (by simp [h0]) (by simp [h1]) (by simp [h2]) (by simp [h3]) ?_
  intro j hj
  have : j = { db0.job with status := JobStatus.processing } := by simpa using hj
  subst this
  simp only []
  omega

/-- Witness for C3: a one-URL batch whose extraction fails still satisfies the
counter invariant at every observation point. -/
theorem processUrls_counter_invariant_witness :
    ((processUrls (fun _ => Except.error "boom") ["https://sportstimingsolutions.in/x"]
        1 100 (freshDb 1)).observations.all
      (fun j => decide (j.successCount + j.errorCount = j.processedUrls
        ∧ j.processedUrls ≤ j.totalUrls))) = true := by
  rw [List.all_eq_true]
  intro j hj
  exact decide_eq_true
    (processUrls_counter_invariant (fun _ => Except.error "boom")
      ["https://sportstimingsolutions.in/x"] 1 100 (freshDb 1)
      (by decide) (by decide) (by decide) (by decide) j hj)

lemma processLoop_obs_shape (ext : String → Except String RaceResultData) (userId now : Nat) :
    ∀ (urls : List String) (st : JobDb) (p s e : Nat) (obs : List JobRow),
      st.job.status = JobStatus.processing →
      ∃ k, ((processLoop ext userId now urls st p s e obs).observations.map (fun j => j.status)
          = obs.map (fun j => j.status) ++ List.replicate k JobStatus.processing
              ++ (if (processLoop ext userId now urls st p s e obs).aborted then []
                  else [JobStatus.completed]))
        ∧ ((processLoop ext userId now urls st p s e obs).aborted = false →
            (processLoop ext userId now urls st p s e obs).db.job.status = JobStatus.completed
              ∧ (processLoop ext userId now urls st p s e obs).db.job.completedAt = some now) := by
  intro urls
  induction urls with
  | nil =>
    intro st p s e obs _
    refine ⟨0, ?_, ?_⟩
    · simp [processLoop]
    · intro _
      simp [processLoop]
  | cons url rest ih =>
    intro st p s e obs hst
    cases hnu : normalizeUrl url with
    | error msg =>
      refine ⟨0, ?_, ?_⟩
      · simp [processLoop, hnu]
      · intro hab
        simp only [processLoop, hnu] at hab
        exact absurd hab (by simp)
    | ok nurl =>
      cases hc : getCachedResult st.results (hashUrl nurl) userId now with
      | some r =>
        obtain ⟨k, hk1, hk2⟩ := ih ⟨st.results, setCounters st.job (p + 1) (s + 1) e⟩
          (p + 1) (s + 1) e (obs ++ [setCounters st.job (p + 1) (s + 1) e])
          (by simp [setCounters, hst])
        refine ⟨k + 1, ?_, ?_⟩
        · simp only [processLoop, hnu, hc]
          rw [hk1]
          simp [setCounters, hst, List.replicate_succ]
        · intro hab
          simp only [processLoop, hnu, hc] at hab ⊢
          exact hk2 hab
      | none =>
        cases hx : ext nurl with
        | ok data =>
          obtain ⟨k, hk1, hk2⟩ := ih
            ⟨st.results ++ [successRow nurl (hashUrl nurl) data now userId],
             setCounters st.job (p + 1) (s + 1) e⟩
            (p + 1) (s + 1) e (obs ++ [setCounters st.job (p + 1) (s + 1) e])
            (by simp [setCounters, hst])
          refine ⟨k + 1, ?_, ?_⟩
          · simp only [processLoop, hnu, hc, hx]
            rw [hk1]
            simp [setCounters, hst, List.replicate_succ]
          · intro hab
            simp only [processLoop, hnu, hc, hx] at hab ⊢
            exact hk2 hab
        | error msg =>
          obtain ⟨k, hk1, hk2⟩ := ih
            ⟨st.results ++ [errorRow nurl (hashUrl nurl) msg now userId],
             setCounters st.job (p + 1) s (e + 1)⟩
            (p + 1) s (e + 1) (obs ++ [setCounters st.job (p + 1) s (e + 1)])
            (by simp [setCounters, hst])
          refine ⟨k + 1, ?_, ?_⟩
          · simp only [processLoop, hnu, hc, hx]
            rw [hk1]
            simp [setCounters, hst, List.replicate_succ]
          · intro hab
            simp only [processLoop, hnu, hc, hx] at hab ⊢
            exact hk2 hab

lemma chain_proc_tail (tail : List JobStatus)
    (h : tail = [] ∨ tail = [JobStatus.completed]) :
    ∀ m, List.Chain' (fun a b => statusRank a ≤ statusRank b)
      (JobStatus.processing :: List.replicate m JobStatus.processing ++ tail) := by
  intro m
  induction m with
  | zero => rcases h with h | h <;> subst h <;> simp [statusRank]
  | succ m ih =>
    rw [List.replicate_succ, List.cons_append]
    exact List.Chain'.cons (by simp [statusRank]) ih

lemma chain_ranks (m : Nat) (tail : List JobStatus)
    (h : tail = [] ∨ tail = [JobStatus.completed]) :
    List.Chain' (fun a b => statusRank a ≤ statusRank b)
      (JobStatus.queued :: List.replicate m JobStatus.processing ++ tail) := by
  cases m with
  | zero => rcases h with h | h <;> subst h <;> simp [statusRank]
  | succ m =>
    rw [List.replicate_succ, List.cons_append]
    exact List.Chain'.cons (by simp [statusRank]) (chain_proc_tail tail h m)

/-- C9: in any run, the observed job statuses are some `processing`
observations followed (unless the run aborted) by a final `completed`
observation; a non-aborted run — one that processed all of its URLs — ends
with status `completed` and a stamped completion time; and together with the
`queued` status the job was created in, the observed status sequence is
monotone along the forward order `queued → processing → {completed, failed}`
(no regression). -/
theorem processUrls_status_forward (ext : String → Except String RaceResultData)
    (urls : List String) (userId now : Nat) (db0 : JobDb) :
    (∃ k, (processUrls ext urls userId now db0).observations.map (fun j => j.status)
        = List.replicate (k + 1) JobStatus.processing
            ++ (if (processUrls ext urls userId now db0).aborted then []
                else [JobStatus.completed]))
    ∧ ((processUrls ext urls userId now db0).aborted = false →
        (processUrls ext urls userId now db0).db.job.status = JobStatus.completed
          ∧ (processUrls ext urls userId now db0).db.job.completedAt = some now)
    ∧ List.Chain' (fun a b => statusRank a ≤ statusRank b)
        (JobStatus.queued ::
          (processUrls ext urls userId now db0).observations.map (fun j => j.status)) := by
  obtain ⟨k, hk1, hk2⟩ := processLoop_obs_shape ext userId now urls
    ⟨db0.results, { db0.job with status := JobStatus.processing }⟩ 0 0 0
    [{ db0.job with status := JobStatus.processing }] (by simp)
  have hshape : (processUrls ext urls userId now db0).observations.map (fun j => j.status)
      = List.replicate (k + 1) JobStatus.processing
          ++ (if (processUrls ext urls userId now db0).aborted then []
              else [JobStatus.completed]) := by
    simp only [processUrls]
    rw [hk1]
    simp [List.replicate_succ]
  refine ⟨⟨k, hshape⟩, ?_, ?_⟩
  · intro hab
    simp only [processUrls] at hab ⊢
    exact hk2 hab
  · rw [hshape]
    refine chain_ranks (k + 1) _ ?_
    cases (processUrls ext urls userId now db0).aborted with
    | false => right; rfl
    | true => left; rfl

/-- Witness for C9: a concrete one-URL run completes without aborting, ends
`completed` with a completion timestamp, and its status sequence from `queued`
is forward-monotone. -/
theorem processUrls_status_forward_witness :
    (processUrls (fun _ => Except.error "boom") ["https://sportstimingsolutions.in/x"]
        1 100 (freshDb 1)).db.job.status = JobStatus.completed
    ∧ (processUrls (fun _ => Except.error "boom") ["https://sportstimingsolutions.in/x"]
        1 100 (freshDb 1)).db.job.completedAt = some 100
    ∧ List.Chain' (fun a b => statusRank a ≤ statusRank b)
        (JobStatus.queued ::
          (processUrls (fun _ => Except.error "boom") ["https://sportstimingsolutions.in/x"]
            1 100 (freshDb 1)).observations.map (fun j => j.status)) := by
  have h := processUrls_status_forward (fun _ => Except.error "boom")
    ["https://sportstimingsolutions.in/x"] 1 100 (freshDb 1)
  have hc := h.2.1 (by decide)
  exact ⟨hc.1, hc.2, h.2.2⟩

/-- C1 (code bug): submitting the spec's scenario batch
`["https://sportstimingsolutions.in/x", "not-a-url"]` to the background loop
does not produce an error record for the invalid URL — the catch handler
re-runs `normalizeUrl(url)`, which throws again, so the run aborts: the job is
left in `processing` with no completion time, only the first URL was counted,
`errorCount` stays 0, and the only row written is the first URL's success row. -/
theorem processUrls_invalid_url_aborts :
    (processUrls (fun _ => Except.ok sampleData)
        ["https://sportstimingsolutions.in/x", "not-a-url"] 1 100 (freshDb 2)).aborted = true
    ∧ (processUrls (fun _ => Except.ok sampleData)
        ["https://sportstimingsolutions.in/x", "not-a-url"] 1 100 (freshDb 2)).db.job.status
        = JobStatus.processing
    ∧ (processUrls (fun _ => Except.ok sampleData)
        ["https://sportstimingsolutions.in/x", "not-a-url"] 1 100 (freshDb 2)).db.job.processedUrls
        = 1
    ∧ (processUrls (fun _ => Except.ok sampleData)
        ["https://sportstimingsolutions.in/x", "not-a-url"] 1 100 (freshDb 2)).db.job.errorCount
        = 0
    ∧ (processUrls (fun _ => Except.ok sampleData)
        ["https://sportstimingsolutions.in/x", "not-a-url"] 1 100 (freshDb 2)).db.job.completedAt
        = none
    ∧ (processUrls (fun _ => Except.ok sampleData)
        ["https://sportstimingsolutions.in/x", "not-a-url"] 1 100 (freshDb 2)).db.results.map
        (fun r => (r.url, r.status))
        = [("https://sportstimingsolutions.in/x", ResultStatus.completed)]
    ∧ normalizeUrl "not-a-url" = Except.error "Invalid URL: not-a-url" := by
  refine ⟨by decide, by decide, by decide, by decide, by decide, by decide, by decide⟩

/-- C2 (code bug): the rows `processUrls` inserts carry no `jobId`, so
`getResultsByJobId` for the job returns nothing even after a successful
extraction was recorded; and on a cache hit no row is written at all even
though the URL counts as processed — so a job's fetched results do not contain
one record per processed URL. -/
theorem processUrls_results_not_linked :
    (processUrls (fun _ => Except.ok sampleData) ["https://sportstimingsolutions.in/x"]
        1 100 (freshDb 1)).db.results.map (fun r => r.jobId) = [none]
    ∧ getResultsByJobId (processUrls (fun _ => Except.ok sampleData)
        ["https://sportstimingsolutions.in/x"] 1 100 (freshDb 1)).db.results "job1" = []
    ∧ (processUrls (fun _ => Except.ok sampleData) ["https://sportstimingsolutions.in/x"]
        1 100 (freshDb 1)).db.job.processedUrls = 1
    ∧ (processUrls (fun _ => Except.ok sampleData) ["https://sportstimingsolutions.in/x"]
        1 100 cachedDb).db.results.length = 1
    ∧ (processUrls (fun _ => Except.ok sampleData) ["https://sportstimingsolutions.in/x"]
        1 100 cachedDb).db.job.processedUrls = 1
    ∧ (processUrls (fun _ => Except.ok sampleData) ["https://sportstimingsolutions.in/x"]
        1 100 cachedDb).db.job.successCount = 1
    ∧ (processUrls (fun _ => Except.ok sampleData) ["https://sportstimingsolutions.in/x"]
        1 100 cachedDb).db.job.status = JobStatus.completed := by
  refine ⟨by decide, by decide, by decide, by decide, by decide, by decide, by decide⟩

/-- C7 counterexample: for a well-formed URL on an unsupported host, the
extraction is re-invoked under `processUrls`'s retry budget — the retry
wrapper used by the batch loop invokes `extractRaceResults` exactly 3 times,
not once, because unsupported-platform errors are retried like any other
failure. -/
theorem unsupported_platform_retried :
    detectPlatform c7url = none
    ∧ (retryWithBackoff (fun _ => extractRaceResults c7url (Except.ok falsyPage))
        3 1000).invocations = 3
    ∧ ¬((retryWithBackoff (fun _ => extractRaceResults c7url (Except.ok falsyPage))
        3 1000).invocations ≤ 1) := by
  refine ⟨by decide, by decide, by decide⟩

/-- C7 amended: for a URL whose host matches no registered profile, every
invocation of the extraction throws the unsupported-platform error regardless
of the render outcome, the retry wrapper used by `processUrls` re-invokes it
3 times (the full default budget) rather than once, and the batch loop then
records exactly one error row for the URL (platform `unknown`, the
unsupported-platform message), counts it as processed and as an error, and
proceeds — here to normal completion of the job. -/
theorem unsupported_platform_recorded_after_retries (pg : Nat → Except String PageData) :
    (∀ i, extractRaceResults c7url (pg i) = Except.error c7msg)
    ∧ (retryWithBackoff (fun i => extractRaceResults c7url (pg i)) 3 1000).invocations = 3
    ∧ (processUrls (runRetryExtract pg) [c7url] 1 100 (freshDb 1)).aborted = false
    ∧ (processUrls (runRetryExtract pg) [c7url] 1 100 (freshDb 1)).db.job.status
        = JobStatus.completed
    ∧ (processUrls (runRetryExtract pg) [c7url] 1 100 (freshDb 1)).db.job.processedUrls = 1
    ∧ (processUrls (runRetryExtract pg) [c7url] 1 100 (freshDb 1)).db.job.errorCount = 1
    ∧ (processUrls (runRetryExtract pg) [c7url] 1 100 (freshDb 1)).db.job.successCount = 0
    ∧ (processUrls (runRetryExtract pg) [c7url] 1 100 (freshDb 1)).db.results.map
        (fun r => (r.status, r.errorMessage, r.platform))
        = [(ResultStatus.error, some c7msg, "unknown")] := by
  have hdet : detectPlatform c7url = none := by decide
  have hext : ∀ x, extractRaceResults c7url x = Except.error c7msg := by
    intro x
    simp only [extractRaceResults, hdet]
    rfl
  have hfail := retryAux_all_fail (fun i => extractRaceResults c7url (pg i)) 1000
    (fun _ => c7msg) 3 0 none (fun j _ => hext (pg j)) (by omega)
  have hinv : (retryWithBackoff (fun i => extractRaceResults c7url (pg i)) 3 1000).invocations
      = 3 := hfail.2
  have hres : (retryWithBackoff (fun i => extractRaceResults c7url (pg i)) 3 1000).result
      = Except.error (some c7msg) := hfail.1
  have hrun : runRetryExtract pg c7url = Except.error c7msg := by
    rw [runRetryExtract, hres]
    rfl
  have hn : normalizeUrl c7url = Except.ok c7url := by decide
  have hcache : getCachedResult [] (hashUrl c7url) 1 100 = none := rfl
  refine ⟨fun i => hext (pg i), hinv, ?_, ?_, ?_, ?_, ?_, ?_⟩ <;>
    simp [processUrls, processLoop, hn, hcache, hrun, freshDb, freshJob, setCounters, errorRow]
